import Mathlib

/-!
Verification of the tasket reactive-dataflow library (header revisions
src/tasket.h and the stepper revision) against its natural-language
specification.  The node protocol is shallowly embedded: neighbor pointers
become abstract handles (type parameters), a neighbor's response to a single
try_put / try_get call is an oracle function supplied per operation, C++
boost::optional becomes Option, raw possibly-null pointers become Option
handles, the ASSERT macro becomes an Option-valued result (none = assertion
failure / undefined behavior), and executor task submission is tracked
explicitly (a list of pending task inputs, or an in-flight counter).
Lock-protected sections execute atomically; a submitted executor task is in
flight from submission until its completion section runs.
-/

namespace Tasket

/-- successor_cache::add / predecessor_cache::add: push_back the neighbor
pointer only when it is non-null. -/
def cacheAdd {σ : Type} (r : Option σ) (l : List σ) : List σ :=
  match r with
  | none => l
  | some x => l ++ [x]

/-- successor_cache<T>::try_put: walk the cached receivers front to back.
The erase of the current entry is the loop increment, so it runs only when
the body falls through, i.e. only for receivers that refused; at the first
receiver that accepts the function returns true with that receiver (and all
later entries) still in the list.  If every receiver refuses, the result is
false and the list is empty.  The oracle f gives each cached receiver's
response to the offered item. -/
def cacheTryPut {σ α : Type} (f : σ → α → Bool) (i : α) : List σ → Bool × List σ
  | [] => (false, [])
  | r :: rest => if f r i then (true, r :: rest) else cacheTryPut f i rest

/-- predecessor_cache<T>::try_get: the symmetric walk over cached senders.
The oracle g gives each sender's response: some o means the sender produced
o, none means it refused (and is erased by the loop increment). -/
def cacheTryGet {π β : Type} (g : π → Option β) : List π → Option β × List π
  | [] => (none, [])
  | p :: rest =>
    match g p with
    | some o => (some o, p :: rest)
    | none => cacheTryGet g rest

/-- Dereference a list of raw receiver pointers: some list of handles when
every pointer is non-null, none as soon as a null pointer would be
dereferenced. -/
def allSome {σ : Type} : List (Option σ) → Option (List σ)
  | [] => some []
  | none :: _ => none
  | some x :: rest => (allSome rest).map (fun l => x :: l)

/-- broadcast_node<T> state: just the raw successor pointer list (possibly
holding null entries, because try_get push_backs its argument unchecked). -/
structure BState (σ α : Type) where
  succs : List (Option σ)
deriving DecidableEq

/-- broadcast_node::try_put: under the lock, call try_put(copy of i) on every
stored successor pointer (responses are discarded, the list is unchanged) and
return true.  Dereferencing a stored null pointer is undefined behavior,
modelled as none.  The delivered list records which handle received which
item. -/
def broadcastTryPut {σ α : Type} (i : α) (s : BState σ α) :
    Option (Bool × List (σ × α) × BState σ α) :=
  (allSome s.succs).map (fun rs => (true, rs.map (fun r => (r, i)), s))

/-- broadcast_node::try_get: under the lock, push_back r (with no null check)
onto the same successors_ list that register_successor populates, and return
false without producing a value. -/
def broadcastTryGet {σ α : Type} (r : Option σ) (s : BState σ α) :
    Option α × BState σ α :=
  (none, ⟨s.succs ++ [r]⟩)

/-- broadcast_node::register_successor: push_back the (non-null, by-reference)
successor. -/
def broadcastRegister {σ α : Type} (r : σ) (s : BState σ α) : BState σ α :=
  ⟨s.succs ++ [some r]⟩

/-- overwrite_node<T> state: raw successor pointer list plus the single-slot
boost::optional value. -/
structure OState (σ α : Type) where
  succs : List (Option σ)
  value : Option α
deriving DecidableEq

/-- overwrite_node::try_put: under the lock, offer a copy of i to every stored
successor pointer (responses discarded), then store i in the slot, and return
true.  A stored null pointer means undefined behavior (none). -/
def owTryPut {σ α : Type} (i : α) (s : OState σ α) :
    Option (Bool × List (σ × α) × OState σ α) :=
  (allSome s.succs).map
    (fun rs => (true, rs.map (fun r => (r, i)), ⟨s.succs, some i⟩))

/-- overwrite_node::try_get: if the slot is empty, push_back r (no null check)
and return false; otherwise copy the value out, leaving the slot and the
successor list untouched. -/
def owTryGet {σ α : Type} (r : Option σ) (s : OState σ α) :
    Option α × OState σ α :=
  match s.value with
  | none => (none, ⟨s.succs ++ [r], none⟩)
  | some v => (some v, s)

/-- queue_node<T> state: the successor cache (entries non-null because they
enter only through successor_cache::add) and the FIFO. -/
structure QState (σ α : Type) where
  succs : List σ
  queue : List α
deriving DecidableEq

/-- queue_node::try_put: drain the successor cache; if nobody accepted, push
the item onto the FIFO; if somebody accepted, ASSERT that the FIFO is empty
(none = the assertion fired).  Returns true in either case. -/
def qTryPut {σ α : Type} (f : σ → α → Bool) (i : α) (s : QState σ α) :
    Option (Bool × QState σ α) :=
  let res := cacheTryPut f i s.succs
  if res.1 then
    if s.queue.isEmpty then some (true, ⟨res.2, s.queue⟩) else none
  else
    some (true, ⟨res.2, s.queue ++ [i]⟩)

/-- queue_node::try_get: if the FIFO is empty, add r to the successor cache
(null-filtered by successor_cache::add) and return no value; otherwise pop
and return the front item. -/
def qTryGet {σ α : Type} (r : Option σ) (s : QState σ α) :
    Option α × QState σ α :=
  match s.queue with
  | [] => (none, ⟨cacheAdd r s.succs, []⟩)
  | x :: rest => (some x, ⟨s.succs, rest⟩)

/-- The reachable queue_node states: an arbitrary wiring phase (the spec
forbids adding edges once data flows, so register_successor calls are folded
into the initial cache contents, with the FIFO still empty) followed by any
sequence of try_put / try_get operations with arbitrary neighbor responses.
A queue_node submits no executor tasks, so every reachable state is
quiescent. -/
inductive QReachable {σ α : Type} : QState σ α → Prop where
  | init (cs : List σ) : QReachable ⟨cs, []⟩
  | put {s : QState σ α} {b : Bool} {s' : QState σ α} (f : σ → α → Bool) (i : α) :
      QReachable s → qTryPut f i s = some (b, s') → QReachable s'
  | get {s : QState σ α} {o : Option α} {s' : QState σ α} (r : Option σ) :
      QReachable s → qTryGet r s = (o, s') → QReachable s'

/-- function_node<Input, Output> state: the active flag, the one-slot output
latch, the list of pending executor tasks (each remembered by the input it
was submitted to transform; the length is the number of tasks in flight), and
the two neighbor caches. -/
structure FState (σ π α β : Type) where
  active : Bool
  value : Option β
  tasks : List α
  preds : List π
  succs : List σ
deriving DecidableEq

/-- function_node::spawn_put: ASSERT(!value_) and ASSERT(!active_) (none when
either fires), then set active and submit one executor task computing
body(i). -/
def fSpawnPut {σ π α β : Type} (i : α) (s : FState σ π α β) :
    Option (FState σ π α β) :=
  if s.value.isSome || s.active then none
  else some { s with active := true, tasks := s.tasks ++ [i] }

/-- function_node::spawn_get: ASSERT(!value_) and ASSERT(!active_), then drain
the predecessor cache; if some sender produced an item, hand it to
spawn_put. -/
def fSpawnGet {σ π α β : Type} (g : π → Option α) (s : FState σ π α β) :
    Option (FState σ π α β) :=
  if s.value.isSome || s.active then none
  else
    match cacheTryGet g s.preds with
    | (some i, preds') => fSpawnPut i { s with preds := preds' }
    | (none, preds') => some { s with preds := preds' }

/-- function_node::try_put: if active or the latch is occupied, record the
sender (null-filtered) in the predecessor cache and refuse; otherwise
spawn_put the item and accept. -/
def fTryPut {σ π α β : Type} (i : α) (sp : Option π) (s : FState σ π α β) :
    Option (Bool × FState σ π α β) :=
  if s.active || s.value.isSome then
    some (false, { s with preds := cacheAdd sp s.preds })
  else
    (fSpawnPut i s).map (fun s' => (true, s'))

/-- function_node::try_get: if the latch is empty, record r (null-filtered) in
the successor cache and produce nothing; otherwise move the latched value
out and, when not active, run spawn_get to pull and start the next input. -/
def fTryGet {σ π α β : Type} (g : π → Option α) (rp : Option σ)
    (s : FState σ π α β) : Option (Option β × FState σ π α β) :=
  match s.value with
  | none => some (none, { s with succs := cacheAdd rp s.succs })
  | some v =>
    let s1 := { s with value := none }
    if s1.active then some (some v, s1)
    else (fSpawnGet g s1).map (fun s2 => (some v, s2))

/-- The completion section of the executor task submitted by
function_node::spawn_put, run when the pending task (head of tasks)
finishes: ASSERT(!value_) at closure entry, compute o = body(i); then under
the lock clear active and drain the successor cache with o; on acceptance
run spawn_get, on refusal stash o in the latch.  The oracles f and g are the
neighbors' responses to this drain. -/
def fComplete {σ π α β : Type} (body : α → β) (f : σ → β → Bool)
    (g : π → Option α) (s : FState σ π α β) : Option (FState σ π α β) :=
  match s.tasks with
  | [] => none
  | i :: rest =>
    if s.value.isSome then none
    else
      let o := body i
      let s0 : FState σ π α β := { s with active := false, tasks := rest }
      match cacheTryPut f o s0.succs with
      | (true, succs') => fSpawnGet g { s0 with succs := succs' }
      | (false, succs') => some { s0 with succs := succs', value := some o }

/-- The reachable function_node states for a fixed user body: start idle with
an arbitrarily wired successor cache, then interleave try_put, try_get,
register_successor and task completions with arbitrary neighbor
responses. -/
inductive FReachable {σ π α β : Type} (body : α → β) : FState σ π α β → Prop where
  | init (cs : List σ) : FReachable body ⟨false, none, [], [], cs⟩
  | register {s s' : FState σ π α β} (r : σ) :
      FReachable body s → s' = { s with succs := s.succs ++ [r] } →
      FReachable body s'
  | tryPut {s : FState σ π α β} {b : Bool} {s' : FState σ π α β}
      (i : α) (sp : Option π) :
      FReachable body s → fTryPut i sp s = some (b, s') → FReachable body s'
  | tryGet {s : FState σ π α β} {o : Option β} {s' : FState σ π α β}
      (g : π → Option α) (rp : Option σ) :
      FReachable body s → fTryGet g rp s = some (o, s') → FReachable body s'
  | complete {s s' : FState σ π α β} (f : σ → β → Bool) (g : π → Option α) :
      FReachable body s → fComplete body f g s = some s' → FReachable body s'

/-- generator_node<Input, Output> state (stepper revision): the active flag,
the one-slot output latch, the live coroutine modelled as its remaining
yields (boost pull_coroutine: empty list = completed or never started, the
head is the value get() returns), the number of executor tasks in flight,
and the two neighbor caches. -/
structure GState (σ π α β : Type) where
  active : Bool
  value : Option β
  src : List β
  inFlight : Nat
  preds : List π
  succs : List σ
deriving DecidableEq

/-- generator_node::spawn: set active and submit one step task. -/
def gSpawn {σ π α β : Type} (s : GState σ π α β) : GState σ π α β :=
  { s with active := true, inFlight := s.inFlight + 1 }

/-- generator_node::spawn_put: ASSERT(!source_) (none when the previous
coroutine is still alive), construct the coroutine for input i (gen i lists
the outputs the user body will yield), then spawn. -/
def gSpawnPut {σ π α β : Type} (gen : α → List β) (i : α) (s : GState σ π α β) :
    Option (GState σ π α β) :=
  match s.src with
  | [] => some (gSpawn { s with src := gen i })
  | _ :: _ => none

/-- generator_node::spawn_get: ASSERT(!active_), then drain the predecessor
cache; if some sender produced an input, hand it to spawn_put. -/
def gSpawnGet {σ π α β : Type} (gen : α → List β) (g : π → Option α)
    (s : GState σ π α β) : Option (GState σ π α β) :=
  if s.active then none
  else
    match cacheTryGet g s.preds with
    | (some i, preds') => gSpawnPut gen i { s with preds := preds' }
    | (none, preds') => some { s with preds := preds' }

/-- generator_node::try_put: if active or the latch is occupied, record the
sender (null-filtered) and refuse; otherwise spawn_put and accept. -/
def gTryPut {σ π α β : Type} (gen : α → List β) (i : α) (sp : Option π)
    (s : GState σ π α β) : Option (Bool × GState σ π α β) :=
  if s.active || s.value.isSome then
    some (false, { s with preds := cacheAdd sp s.preds })
  else
    (gSpawnPut gen i s).map (fun s' => (true, s'))

/-- generator_node::try_get: if the latch is empty, record r (null-filtered)
and produce nothing; otherwise move the latched value out and, when not
active, run spawn_get.  Note that spawn_get only pulls a new input from the
predecessor cache: nothing resumes a still-alive coroutine. -/
def gTryGet {σ π α β : Type} (gen : α → List β) (g : π → Option α)
    (rp : Option σ) (s : GState σ π α β) :
    Option (Option β × GState σ π α β) :=
  match s.value with
  | none => some (none, { s with succs := cacheAdd rp s.succs })
  | some v =>
    let s1 := { s with value := none }
    if s1.active then some (some v, s1)
    else (gSpawnGet gen g s1).map (fun s2 => (some v, s2))

/-- The step task submitted by generator_node::spawn, run at completion of an
in-flight task: outside the lock, take the coroutine's current value and
advance it (or learn it is done); under the lock clear active, then: with no
value, spawn_get; with a value accepted by the successor-cache drain, spawn
again; with a value refused, stash it in the latch. -/
def gComplete {σ π α β : Type} (gen : α → List β) (f : σ → β → Bool)
    (g : π → Option α) (s : GState σ π α β) : Option (GState σ π α β) :=
  let s0 : GState σ π α β := { s with inFlight := s.inFlight - 1 }
  match s0.src with
  | [] => gSpawnGet gen g { s0 with active := false }
  | o :: rest =>
    let s1 : GState σ π α β := { s0 with active := false, src := rest }
    match cacheTryPut f o s1.succs with
    | (true, succs') => some (gSpawn { s1 with succs := succs' })
    | (false, succs') => some { s1 with succs := succs', value := some o }

/-- The reachable generator_node states for a fixed user generator: start idle
with an arbitrarily wired successor cache, then interleave try_put, try_get,
register_successor and step-task completions (the latter only while a task
is actually in flight) with arbitrary neighbor responses. -/
inductive GReachable {σ π α β : Type} (gen : α → List β) : GState σ π α β → Prop where
  | init (cs : List σ) : GReachable gen ⟨false, none, [], 0, [], cs⟩
  | register {s s' : GState σ π α β} (r : σ) :
      GReachable gen s → s' = { s with succs := s.succs ++ [r] } →
      GReachable gen s'
  | tryPut {s : GState σ π α β} {b : Bool} {s' : GState σ π α β}
      (i : α) (sp : Option π) :
      GReachable gen s → gTryPut gen i sp s = some (b, s') → GReachable gen s'
  | tryGet {s : GState σ π α β} {o : Option β} {s' : GState σ π α β}
      (g : π → Option α) (rp : Option σ) :
      GReachable gen s → gTryGet gen g rp s = some (o, s') → GReachable gen s'
  | complete {s s' : GState σ π α β} (f : σ → β → Bool) (g : π → Option α) :
      GReachable gen s → 1 ≤ s.inFlight → gComplete gen f g s = some s' →
      GReachable gen s'

/-- Events observed while executing one node operation, for checking the lock
discipline the spec demands. -/
inductive Event : Type where
  | lock
  | unlock
  | callNeighbor
  | callUser
deriving DecidableEq

/-- Scan an event trace keeping the mutex depth; true when a neighbor call or
a user-callback call happens while the depth is positive. -/
def callsUnderLock : Nat → List Event → Bool
  | _, [] => false
  | d, Event.lock :: es => callsUnderLock (d + 1) es
  | d, Event.unlock :: es => callsUnderLock (d - 1) es
  | d, Event.callNeighbor :: es => decide (0 < d) || callsUnderLock d es
  | d, Event.callUser :: es => decide (0 < d) || callsUnderLock d es

/-- Event trace of broadcast_node::try_put on a node with n registered
successors: the lock_guard is taken first and the whole successor loop (one
try_put call per successor) runs inside its scope. -/
def broadcastTryPutTrace (n : Nat) : List Event :=
  Event.lock :: (List.replicate n Event.callNeighbor ++ [Event.unlock])

/-- Event trace of filter_node::try_put: the lock_guard is taken first, the
user predicate is evaluated inside its scope, and when the predicate passes
the successor-cache drain (visited receivers each get a try_put call) also
runs inside its scope. -/
def filterTryPutTrace (pass : Bool) (visited : Nat) : List Event :=
  Event.lock :: Event.callUser ::
    ((if pass then List.replicate visited Event.callNeighbor else []) ++
      [Event.unlock])

/-- A user generator body that yields the two outputs 11 and 12 for any
input. -/
def gen2 : Nat → List Nat := fun _ => [11, 12]

/-- A downstream that refuses every offer. -/
def refuseAll : Nat → Nat → Bool := fun _ _ => false

/-- An upstream drain that finds no predecessor with an item. -/
def pullNone : Nat → Option Nat := fun _ => none

/-- Freshly wired generator_node with one registered successor (handle 5). -/
def gEx0 : GState Nat Nat Nat Nat := ⟨false, none, [], 0, [], [5]⟩

/-- After try_put of input 1: coroutine alive with yields [11, 12], one step
task in flight. -/
def gEx1 : GState Nat Nat Nat Nat := ⟨true, none, [11, 12], 1, [], [5]⟩

/-- After the step task completes with the downstream refusing: 11 latched,
12 still pending inside the suspended coroutine, no task in flight. -/
def gEx2 : GState Nat Nat Nat Nat := ⟨false, some 11, [12], 0, [], []⟩

/-- After the downstream pulls the latch: quiescent, yet yield 12 is still
trapped in the suspended coroutine with nothing scheduled to deliver it. -/
def gEx3 : GState Nat Nat Nat Nat := ⟨false, none, [12], 0, [], []⟩

theorem cacheTryPut_characterization {σ α : Type} (f : σ → α → Bool) (i : α)
    (l : List σ) :
    (∃ pre r post, l = pre ++ r :: post ∧ (∀ x ∈ pre, f x i = false) ∧
      f r i = true ∧ cacheTryPut f i l = (true, r :: post))
    ∨ ((∀ x ∈ l, f x i = false) ∧ cacheTryPut f i l = (false, [])) := by
  induction l with
  | nil => exact Or.inr ⟨by simp, rfl⟩
  | cons r rest ih =>
    by_cases hr : f r i = true
    · exact Or.inl ⟨[], r, rest, by simp, by simp, hr, by simp [cacheTryPut, hr]⟩
    · have hr' : f r i = false := Bool.eq_false_iff.mpr hr
      rcases ih with ⟨pre, a, post, hl, hpre, ha, heq⟩ | ⟨hall, heq⟩
      · refine Or.inl ⟨r :: pre, a, post, by simp [hl], ?_, ha,
          by simp [cacheTryPut, hr', heq]⟩
        intro x hx
        rcases List.mem_cons.mp hx with h1 | h2
        · simpa [h1] using hr'
        · exact hpre x h2
      · refine Or.inr ⟨?_, by simp [cacheTryPut, hr', heq]⟩
        intro x hx
        rcases List.mem_cons.mp hx with h1 | h2
        · simpa [h1] using hr'
        · exact hall x h2

theorem cacheTryGet_characterization {π β : Type} (g : π → Option β)
    (m : List π) :
    (∃ pre p post o, m = pre ++ p :: post ∧ (∀ x ∈ pre, g x = none) ∧
      g p = some o ∧ cacheTryGet g m = (some o, p :: post))
    ∨ ((∀ x ∈ m, g x = none) ∧ cacheTryGet g m = (none, [])) := by
  induction m with
  | nil => exact Or.inr ⟨by simp, rfl⟩
  | cons p rest ih =>
    cases hp : g p with
    | some o =>
      exact Or.inl ⟨[], p, rest, o, by simp, by simp, hp,
        by simp [cacheTryGet, hp]⟩
    | none =>
      rcases ih with ⟨pre, a, post, o, hl, hpre, ha, heq⟩ | ⟨hall, heq⟩
      · refine Or.inl ⟨p :: pre, a, post, o, by simp [hl], ?_, ha,
          by simp [cacheTryGet, hp, heq]⟩
        intro x hx
        rcases List.mem_cons.mp hx with h1 | h2
        · simpa [h1] using hp
        · exact hpre x h2
      · refine Or.inr ⟨?_, by simp [cacheTryGet, hp, heq]⟩
        intro x hx
        rcases List.mem_cons.mp hx with h1 | h2
        · simpa [h1] using hp
        · exact hall x h2

theorem cacheTryPut_fst_false {σ α : Type} {f : σ → α → Bool} {i : α}
    {l : List σ} (h : (cacheTryPut f i l).1 = false) :
    (cacheTryPut f i l).2 = [] := by
  rcases cacheTryPut_characterization f i l with ⟨_, _, _, _, _, _, heq⟩ | ⟨_, heq⟩
  · rw [heq] at h; simp at h
  · rw [heq]

theorem cacheTryPut_fst_true_ne_nil {σ α : Type} {f : σ → α → Bool} {i : α}
    {l : List σ} (h : (cacheTryPut f i l).1 = true) : l ≠ [] := by
  intro hl
  subst hl
  simp [cacheTryPut] at h

theorem allSome_of_any_isNone {σ : Type} {l : List (Option σ)}
    (h : l.any Option.isNone = true) : allSome l = none := by
  induction l with
  | nil => simp at h
  | cons x rest ih =>
    cases x with
    | none => rfl
    | some y =>
      simp only [List.any_cons, Option.isNone_some, Bool.false_or] at h
      simp [allSome, ih h]

/-- C1: the no-duplication / no-loss pipeline property fails on the stepper
revision of generator_node.  Concrete run with handles and items drawn from
Nat: a freshly wired generator (gEx0) accepts input 1, whose coroutine
yields 11 then 12; the step task completes while the downstream refuses, so
11 is latched and 12 stays pending in the suspended coroutine (gEx2); the
downstream then pulls the latch via try_get, which only runs spawn_get (a
predecessor pull) and never resumes the live coroutine, leaving a quiescent
state (gEx3: no task in flight, not active, latch empty) in which yield 12
is unreachable — it never arrives at the sink.  Moreover a subsequent
try_put on that state reaches spawn_put with the coroutine still alive and
trips ASSERT(!source_), modelled as the none result. -/
theorem c1_generator_pending_output_lost :
    gTryPut gen2 1 none gEx0 = some (true, gEx1)
    ∧ gComplete gen2 refuseAll pullNone gEx1 = some gEx2
    ∧ gTryGet gen2 pullNone (some 7) gEx2 = some (some 11, gEx3)
    ∧ gEx3.src = [12] ∧ gEx3.inFlight = 0 ∧ gEx3.active = false
    ∧ gEx3.value = none
    ∧ gTryPut gen2 2 none gEx3 = none := by
  decide

/-- C2 counterexample: the claim predicts that a successor cache holding the
single receiver 0, which accepts, ends the drain with the accepting receiver
removed, i.e. try_put returns (true, []).  The code keeps the acceptor: the
erase is the loop increment and is skipped by the early return, so the
result is (true, [0]). -/
theorem c2_accepting_successor_not_removed :
    cacheTryPut (fun _ _ => true) (0 : Nat) [(0 : Nat)] ≠ (true, []) := by
  decide

/-- C2 amended: try_put (try_get) visits the cached neighbors front to back,
erases each refusing neighbor as it is passed, and stops at the first
neighbor that accepts, returning true with the accepting neighbor still at
the front of the remaining cache (only the refusers before it are removed);
when no neighbor accepts it returns false and leaves the cache empty. -/
theorem c2_cache_drain_amended :
    ∀ (σ α π β : Type) (f : σ → α → Bool) (i : α) (l : List σ)
      (g : π → Option β) (m : List π),
      ((∃ (pre : List σ) (r : σ) (post : List σ),
          l = pre ++ r :: post ∧ (∀ x ∈ pre, f x i = false) ∧
          f r i = true ∧ cacheTryPut f i l = (true, r :: post))
        ∨ ((∀ x ∈ l, f x i = false) ∧ cacheTryPut f i l = (false, [])))
      ∧ ((∃ (pre : List π) (p : π) (post : List π) (o : β),
          m = pre ++ p :: post ∧ (∀ x ∈ pre, g x = none) ∧
          g p = some o ∧ cacheTryGet g m = (some o, p :: post))
        ∨ ((∀ x ∈ m, g x = none) ∧ cacheTryGet g m = (none, []))) := by
  intro σ α π β f i l g m
  exact ⟨cacheTryPut_characterization f i l, cacheTryGet_characterization g m⟩

/-- C5: the claim that no node holds its own mutex while calling into a
neighbor or a user callback fails on the code; the spec itself names it an
invariant the implementation must establish and notes that source variants
violate it.  Evaluating the event traces of the cited operations at concrete
inputs: broadcast_node::try_put with one registered successor performs its
neighbor try_put inside the lock_guard scope, and filter_node::try_put with
a passing predicate evaluates the user predicate and drains the successor
cache inside the lock_guard scope. -/
theorem c5_mutex_held_during_neighbor_and_user_calls :
    callsUnderLock 0 (broadcastTryPutTrace 1) = true
    ∧ callsUnderLock 0 (filterTryPutTrace true 1) = true := by
  decide

/-- C9 counterexample: the claim predicts that broadcast_node::try_get leaves
the successor list (the permanent edge list) unchanged.  On the empty node,
try_get with receiver pointer 7 push_backs that pointer, so the list
changes. -/
theorem c9_broadcast_tryGet_records_counterexample :
    (broadcastTryGet (some 7) (⟨[]⟩ : BState Nat Nat)).2 ≠ ⟨[]⟩ := by
  decide

/-- C9 amended: broadcast_node::try_get always returns refused and never
produces a value, but it is not a no-op: it appends the passed receiver
pointer r (with no null check) to the very successors list that
register_successor populates. -/
theorem c9_broadcast_tryGet_amended :
    ∀ (σ α : Type) (r : Option σ) (s : BState σ α),
      broadcastTryGet r s = ((none : Option α), ⟨s.succs ++ [r]⟩) := by
  intro σ α r s
  rfl

/-- C7: overwrite_node latch semantics.  When a value is present, try_get
copies it out without consuming it and leaves the node state (slot and
successor list) unchanged, so an immediately repeated try_get returns the
same value; and a try_get performed after an accepted try_put(i) with no
intervening put returns exactly i. -/
theorem c7_overwrite_read_not_consuming :
    ∀ (σ α : Type) (s : OState σ α) (r r2 : Option σ),
      (∀ v, s.value = some v →
        owTryGet r s = (some v, s) ∧ owTryGet r2 (owTryGet r s).2 = (some v, s))
      ∧ (∀ (i : α) (ds : List (σ × α)) (s' : OState σ α),
          owTryPut i s = some (true, ds, s') → owTryGet r s' = (some i, s')) := by
  intro σ α s r r2
  constructor
  · intro v hv
    have h1 : owTryGet r s = (some v, s) := by
      simp [owTryGet, hv]
    exact ⟨h1, by rw [h1]; simp [owTryGet, hv]⟩
  · intro i ds s' hput
    rcases Option.map_eq_some'.mp hput with ⟨rs, _, heq⟩
    have hs' : s' = ⟨s.succs, some i⟩ := by
      injection heq with h1 h2
      injection h2 with h3 h4
      exact h4.symm
    subst hs'
    simp [owTryGet]

/-- C10: in broadcast_node and overwrite_node the pointer r passed to a
refused try_get is appended, with no null check, to the very successors list
that register_successor populates (and from which nothing is ever removed);
every later try_put dereferences each stored pointer and hands it a copy of
the item, so a non-null r recorded this way receives a copy of every later
put, while a null r (the interface default) recorded this way makes a later
try_put dereference null — undefined behavior, modelled as the none
result. -/
theorem c10_null_successor_hazard :
    ∀ (σ α : Type) (bs : BState σ α) (os : OState σ α) (r : Option σ)
      (x : σ) (i : α),
      broadcastTryGet r bs = ((none : Option α), ⟨bs.succs ++ [r]⟩)
      ∧ (os.value = none → owTryGet r os = (none, ⟨os.succs ++ [r], none⟩))
      ∧ broadcastRegister x bs = ⟨bs.succs ++ [some x]⟩
      ∧ (bs.succs.any Option.isNone = true → broadcastTryPut i bs = none)
      ∧ (∀ rs, allSome bs.succs = some rs →
          broadcastTryPut i bs = some (true, rs.map (fun h => (h, i)), bs)) := by
  intro σ α bs os r x i
  refine ⟨rfl, ?_, rfl, ?_, ?_⟩
  · intro hv
    simp [owTryGet, hv]
  · intro hnull
    simp [broadcastTryPut, allSome_of_any_isNone hnull]
  · intro rs hrs
    simp [broadcastTryPut, hrs]

theorem allSome_of_not_any_isNone {σ : Type} {l : List (Option σ)}
    (h : l.any Option.isNone = false) : ∃ rs, allSome l = some rs := by
  induction l with
  | nil => exact ⟨[], rfl⟩
  | cons x rest ih =>
    cases x with
    | none => simp at h
    | some y =>
      simp only [List.any_cons, Option.isNone_some, Bool.false_or] at h
      obtain ⟨rs, hrs⟩ := ih h
      exact ⟨y :: rs, by simp [allSome, hrs]⟩

theorem queue_inv {σ α : Type} {s : QState σ α} (h : QReachable s) :
    s.queue = [] ∨ s.succs = [] := by
  induction h with
  | init cs => exact Or.inl rfl
  | @put s b s' f i hr hstep ih =>
    simp only [qTryPut] at hstep
    split at hstep
    · split at hstep
      · next hq =>
        simp only [Option.some.injEq, Prod.mk.injEq] at hstep
        obtain ⟨-, hs'⟩ := hstep
        subst hs'
        exact Or.inl (List.isEmpty_iff.mp hq)
      · exact absurd hstep (by simp)
    · next hacc =>
      simp only [Option.some.injEq, Prod.mk.injEq] at hstep
      obtain ⟨-, hs'⟩ := hstep
      subst hs'
      have hfalse : (cacheTryPut f i s.succs).1 = false :=
        Bool.eq_false_iff.mpr hacc
      exact Or.inr (cacheTryPut_fst_false hfalse)
  | @get s o s' r hr hstep ih =>
    cases hq : s.queue with
    | nil =>
      simp only [qTryGet, hq, Prod.mk.injEq] at hstep
      obtain ⟨-, hs'⟩ := hstep
      subst hs'
      exact Or.inl rfl
    | cons x rest =>
      simp only [qTryGet, hq, Prod.mk.injEq] at hstep
      obtain ⟨-, hs'⟩ := hstep
      subst hs'
      rcases ih with hemp | hemp
      · rw [hq] at hemp; cases hemp
      · exact Or.inr hemp

theorem fSpawnPut_spec {σ π α β : Type} {i : α} {s s' : FState σ π α β}
    (h : fSpawnPut i s = some s') :
    s.active = false ∧ s.value = none ∧
      s' = { s with active := true, tasks := s.tasks ++ [i] } := by
  cases hval : s.value with
  | some v => simp [fSpawnPut, hval] at h
  | none =>
    cases hact : s.active with
    | true => simp [fSpawnPut, hval, hact] at h
    | false =>
      simp only [fSpawnPut, hval, hact, Option.isSome_none, Bool.or_self,
        Bool.false_eq_true, if_false, Option.some.injEq] at h
      exact ⟨rfl, rfl, h.symm⟩

theorem fSpawnGet_spec {σ π α β : Type} {g : π → Option α}
    {s s' : FState σ π α β} (h : fSpawnGet g s = some s') :
    s.active = false ∧ s.value = none ∧ s'.value = none ∧
      ((s'.active = false ∧ s'.tasks = s.tasks) ∨
        (s'.active = true ∧ ∃ i, s'.tasks = s.tasks ++ [i])) := by
  cases hval : s.value with
  | some v => simp [fSpawnGet, hval] at h
  | none =>
    cases hact : s.active with
    | true => simp [fSpawnGet, hval, hact] at h
    | false =>
      simp only [fSpawnGet, hval, hact, Option.isSome_none, Bool.or_self,
        Bool.false_eq_true, if_false] at h
      rcases hcg : cacheTryGet g s.preds with ⟨oi, preds'⟩
      rw [hcg] at h
      cases oi with
      | some i =>
        obtain ⟨-, -, hs'⟩ := fSpawnPut_spec h
        subst hs'
        exact ⟨rfl, rfl, rfl, Or.inr ⟨rfl, i, rfl⟩⟩
      | none =>
        simp only [Option.some.injEq] at h
        subst h
        exact ⟨rfl, rfl, rfl, Or.inl ⟨rfl, rfl⟩⟩

theorem function_node_at_most_one {σ π α β : Type} {body : α → β}
    {s : FState σ π α β} (h : FReachable body s) :
    s.tasks.length ≤ 1 ∧ (s.active = true ↔ s.tasks.length = 1) := by
  induction h with
  | init cs => simp
  | @register s s' r hr hs' ih =>
    subst hs'
    simpa using ih
  | @tryPut s b s' i sp hr hstep ih =>
    by_cases hbusy : (s.active || s.value.isSome) = true
    · simp only [fTryPut, hbusy, if_true, Option.some.injEq,
        Prod.mk.injEq] at hstep
      obtain ⟨-, hs'⟩ := hstep
      subst hs'
      simpa using ih
    · simp only [fTryPut, hbusy, if_false] at hstep
      rcases Option.map_eq_some'.mp hstep with ⟨s1, hsp, heq⟩
      obtain ⟨hact, -, hs1⟩ := fSpawnPut_spec hsp
      simp only [Prod.mk.injEq] at heq
      obtain ⟨-, hs'⟩ := heq
      subst hs'
      subst hs1
      obtain ⟨hle, hiff⟩ := ih
      have hzero : s.tasks.length = 0 := by
        rcases Nat.lt_or_ge s.tasks.length 1 with hlt | hge
        · omega
        · exfalso
          have : s.tasks.length = 1 := by omega
          rw [hiff.mpr this] at hact
          cases hact
      simp [hzero]
  | @tryGet s o s' g rp hr hstep ih =>
    cases hval : s.value with
    | none =>
      simp only [fTryGet, hval, Option.some.injEq, Prod.mk.injEq] at hstep
      obtain ⟨-, hs'⟩ := hstep
      subst hs'
      simpa using ih
    | some v =>
      simp only [fTryGet, hval] at hstep
      cases hact : s.active with
      | true =>
        simp only [hact, if_true, Option.some.injEq, Prod.mk.injEq] at hstep
        obtain ⟨-, hs'⟩ := hstep
        subst hs'
        simpa [hact] using ih
      | false =>
        simp only [hact, Bool.false_eq_true, if_false] at hstep
        rcases Option.map_eq_some'.mp hstep with ⟨s2, hsg, heq⟩
        simp only [Prod.mk.injEq] at heq
        obtain ⟨-, hs'⟩ := heq
        subst hs'
        obtain ⟨-, -, -, hcases⟩ := fSpawnGet_spec hsg
        obtain ⟨hle, hiff⟩ := ih
        have hzero : s.tasks.length = 0 := by
          rcases Nat.lt_or_ge s.tasks.length 1 with hlt | hge
          · omega
          · exfalso
            have h1 : s.tasks.length = 1 := by omega
            rw [hiff.mpr h1] at hact
            cases hact
        rcases hcases with ⟨ha, ht⟩ | ⟨ha, i, ht⟩
        · simp only [ha, ht]
          simp [hzero]
        · simp only [ha, ht]
          simp [hzero]
  | @complete s s' f g hr hstep ih =>
    cases htasks : s.tasks with
    | nil => simp [fComplete, htasks] at hstep
    | cons i rest =>
      obtain ⟨hle, hiff⟩ := ih
      have hrest : rest = [] := by
        rw [htasks] at hle
        simpa using hle
      subst hrest
      cases hval : s.value with
      | some v => simp [fComplete, htasks, hval] at hstep
      | none =>
        simp only [fComplete, htasks, hval, Option.isSome_none,
          Bool.false_eq_true, if_false] at hstep
        rcases hcp : cacheTryPut f (body i) s.succs with ⟨bb, succs'⟩
        rw [hcp] at hstep
        cases bb with
        | true =>
          simp only at hstep
          obtain ⟨-, -, -, hcases⟩ := fSpawnGet_spec hstep
          rcases hcases with ⟨ha, ht⟩ | ⟨ha, j, ht⟩
          · simp only [ha, ht]
            simp
          · simp only [ha, ht]
            simp
        | false =>
          simp only [Option.some.injEq] at hstep
          subst hstep
          simp

theorem gSpawnPut_spec {σ π α β : Type} {gen : α → List β} {i : α}
    {s s' : GState σ π α β} (h : gSpawnPut gen i s = some s') :
    s.src = [] ∧
      s' = { s with src := gen i, active := true, inFlight := s.inFlight + 1 } := by
  cases hsrc : s.src with
  | cons x rest => simp [gSpawnPut, hsrc] at h
  | nil =>
    simp only [gSpawnPut, hsrc, Option.some.injEq] at h
    exact ⟨rfl, h.symm⟩

theorem gSpawnGet_spec {σ π α β : Type} {gen : α → List β} {g : π → Option α}
    {s s' : GState σ π α β} (h : gSpawnGet gen g s = some s') :
    s.active = false ∧ s'.value = s.value ∧
      ((s'.active = false ∧ s'.inFlight = s.inFlight) ∨
        (s'.active = true ∧ s'.inFlight = s.inFlight + 1)) := by
  cases hact : s.active with
  | true => simp [gSpawnGet, hact] at h
  | false =>
    simp only [gSpawnGet, hact, Bool.false_eq_true, if_false] at h
    rcases hcg : cacheTryGet g s.preds with ⟨oi, preds'⟩
    rw [hcg] at h
    cases oi with
    | some i =>
      obtain ⟨-, hs'⟩ := gSpawnPut_spec h
      subst hs'
      exact ⟨rfl, rfl, Or.inr ⟨rfl, rfl⟩⟩
    | none =>
      simp only [Option.some.injEq] at h
      subst h
      exact ⟨rfl, rfl, Or.inl ⟨rfl, rfl⟩⟩

theorem generator_node_at_most_one {σ π α β : Type} {gen : α → List β}
    {s : GState σ π α β} (h : GReachable gen s) :
    s.inFlight ≤ 1 ∧ (s.active = true ↔ s.inFlight = 1) := by
  induction h with
  | init cs => simp
  | @register s s' r hr hs' ih =>
    subst hs'
    simpa using ih
  | @tryPut s b s' i sp hr hstep ih =>
    by_cases hbusy : (s.active || s.value.isSome) = true
    · simp only [gTryPut, hbusy, if_true, Option.some.injEq,
        Prod.mk.injEq] at hstep
      obtain ⟨-, hs'⟩ := hstep
      subst hs'
      simpa using ih
    · simp only [gTryPut, hbusy, if_false] at hstep
      rcases Option.map_eq_some'.mp hstep with ⟨s1, hsp, heq⟩
      simp only [Prod.mk.injEq] at heq
      obtain ⟨-, hs'⟩ := heq
      subst hs'
      obtain ⟨-, hs1⟩ := gSpawnPut_spec hsp
      subst hs1
      have hact : s.active = false := by
        rcases Bool.or_eq_false_iff.mp (Bool.eq_false_iff.mpr hbusy) with ⟨h1, -⟩
        exact h1
      obtain ⟨hle, hiff⟩ := ih
      have hzero : s.inFlight = 0 := by
        rcases Nat.lt_or_ge s.inFlight 1 with hlt | hge
        · omega
        · exfalso
          have h1 : s.inFlight = 1 := by omega
          rw [hiff.mpr h1] at hact
          cases hact
      simp [hzero]
  | @tryGet s o s' g rp hr hstep ih =>
    cases hval : s.value with
    | none =>
      simp only [gTryGet, hval, Option.some.injEq, Prod.mk.injEq] at hstep
      obtain ⟨-, hs'⟩ := hstep
      subst hs'
      simpa using ih
    | some v =>
      simp only [gTryGet, hval] at hstep
      cases hact : s.active with
      | true =>
        simp only [hact, if_true, Option.some.injEq, Prod.mk.injEq] at hstep
        obtain ⟨-, hs'⟩ := hstep
        subst hs'
        simpa [hact] using ih
      | false =>
        simp only [hact, Bool.false_eq_true, if_false] at hstep
        rcases Option.map_eq_some'.mp hstep with ⟨s2, hsg, heq⟩
        simp only [Prod.mk.injEq] at heq
        obtain ⟨-, hs'⟩ := heq
        subst hs'
        obtain ⟨-, -, hcases⟩ := gSpawnGet_spec hsg
        obtain ⟨hle, hiff⟩ := ih
        have hzero : s.inFlight = 0 := by
          rcases Nat.lt_or_ge s.inFlight 1 with hlt | hge
          · omega
          · exfalso
            have h1 : s.inFlight = 1 := by omega
            rw [hiff.mpr h1] at hact
            cases hact
        rcases hcases with ⟨ha, hf⟩ | ⟨ha, hf⟩
        · rw [ha, hf]
          simp [hzero]
        · rw [ha, hf]
          simp [hzero]
  | @complete s s' f g hr hfl hstep ih =>
    obtain ⟨hle, hiff⟩ := ih
    have hone : s.inFlight = 1 := by omega
    cases hsrc : s.src with
    | nil =>
      simp only [gComplete, hsrc] at hstep
      obtain ⟨-, -, hcases⟩ := gSpawnGet_spec hstep
      rcases hcases with ⟨ha, hf⟩ | ⟨ha, hf⟩
      · rw [ha, hf]
        simp [hone]
      · rw [ha, hf]
        simp [hone]
    | cons o rest =>
      simp only [gComplete, hsrc] at hstep
      rcases hcp : cacheTryPut f o s.succs with ⟨bb, succs'⟩
      rw [hcp] at hstep
      cases bb with
      | true =>
        simp only [Option.some.injEq] at hstep
        subst hstep
        simp [gSpawn, hone]
      | false =>
        simp only [Option.some.injEq] at hstep
        subst hstep
        simp [hone]

/-- C3: for every reachable queue_node state (the queue_node spawns no tasks,
so every reachable state is quiescent; edges are registered only before data
flows, per the spec's lifecycle, so wiring is folded into the initial
cache), either the FIFO is empty or the successor cache is empty; moreover a
successful successor-cache hand-off during try_put can only happen when the
FIFO is empty, which is exactly the assertion in the code, and when the
drain fails the cache is left empty, so an enqueue happens only with an
empty successor cache. -/
theorem c3_queue_fifo_xor_cache :
    ∀ (σ α : Type) (s : QState σ α), QReachable s →
      (s.queue = [] ∨ s.succs = [])
      ∧ (∀ (f : σ → α → Bool) (i : α),
          (cacheTryPut f i s.succs).1 = true → s.queue = []) := by
  intro σ α s h
  refine ⟨queue_inv h, ?_⟩
  intro f i hacc
  rcases queue_inv h with hq | hs
  · exact hq
  · exact absurd hs (cacheTryPut_fst_true_ne_nil hacc)

theorem c3_queue_fifo_xor_cache_witness :
    (((⟨[], [5]⟩ : QState Nat Nat).queue = []
        ∨ (⟨[], [5]⟩ : QState Nat Nat).succs = [])
      ∧ (∀ (f : Nat → Nat → Bool) (i : Nat),
          (cacheTryPut f i (⟨[], [5]⟩ : QState Nat Nat).succs).1 = true →
          (⟨[], [5]⟩ : QState Nat Nat).queue = [])) :=
  c3_queue_fifo_xor_cache Nat Nat ⟨[], [5]⟩
    (QReachable.put (fun _ _ => false) 5 (QReachable.init []) rfl)

/-- C4: for every reachable function_node state and every reachable
generator_node state (tasks in flight are counted from submission to the
run of their lock-protected completion section, which executes atomically),
at most one executor task is in flight on behalf of the node, and the
active flag is true exactly when one task is in flight. -/
theorem c4_at_most_one_task :
    ∀ (σ π α β : Type),
      (∀ (body : α → β) (s : FState σ π α β), FReachable body s →
        s.tasks.length ≤ 1 ∧ (s.active = true ↔ s.tasks.length = 1))
      ∧ (∀ (gen : α → List β) (s : GState σ π α β), GReachable gen s →
        s.inFlight ≤ 1 ∧ (s.active = true ↔ s.inFlight = 1)) := by
  intro σ π α β
  exact ⟨fun _ _ h => function_node_at_most_one h,
    fun _ _ h => generator_node_at_most_one h⟩

theorem c4_at_most_one_task_witness :
    ((⟨true, none, [3], [], []⟩ : FState Nat Nat Nat Nat).tasks.length ≤ 1
      ∧ ((⟨true, none, [3], [], []⟩ : FState Nat Nat Nat Nat).active = true
        ↔ (⟨true, none, [3], [], []⟩ : FState Nat Nat Nat Nat).tasks.length = 1))
    ∧ ((⟨true, none, [11, 12], 1, [], [5]⟩ : GState Nat Nat Nat Nat).inFlight ≤ 1
      ∧ ((⟨true, none, [11, 12], 1, [], [5]⟩ : GState Nat Nat Nat Nat).active = true
        ↔ (⟨true, none, [11, 12], 1, [], [5]⟩ : GState Nat Nat Nat Nat).inFlight = 1)) :=
  ⟨(c4_at_most_one_task Nat Nat Nat Nat).1 (fun n => n) _
      (FReachable.tryPut 3 none (FReachable.init []) rfl),
    (c4_at_most_one_task Nat Nat Nat Nat).2 gen2 _
      (GReachable.tryPut 1 none (GReachable.init [5]) rfl)⟩

/-- C6: function_node::try_put refuses exactly when the active flag is set or
the latch holds a value; on refusal the state is unchanged except that the
sender pointer (when non-null) is appended to the predecessor cache; on
acceptance the active flag becomes true and exactly one executor task
computing body(i) is submitted (appended to the pending-task list), with
everything else unchanged. -/
theorem c6_function_tryPut_frame :
    ∀ (σ π α β : Type) (s : FState σ π α β) (i : α) (sp : Option π),
      ((s.active = true ∨ s.value ≠ none) →
        fTryPut i sp s = some (false, { s with preds := cacheAdd sp s.preds }))
      ∧ ((s.active = false ∧ s.value = none) →
        fTryPut i sp s =
          some (true, { s with active := true, tasks := s.tasks ++ [i] }))
      ∧ (∀ (b : Bool) (s' : FState σ π α β), fTryPut i sp s = some (b, s') →
          (b = false ↔ (s.active = true ∨ s.value ≠ none))) := by
  intro σ π α β s i sp
  refine ⟨?_, ?_, ?_⟩
  · intro hbusy
    have hb : (s.active || s.value.isSome) = true := by
      rcases hbusy with h | h
      · simp [h]
      · simp [Option.isSome_iff_ne_none.mpr h]
    simp [fTryPut, hb]
  · intro ⟨hact, hval⟩
    simp [fTryPut, fSpawnPut, hact, hval]
  · intro b s' hstep
    by_cases hb : (s.active || s.value.isSome) = true
    · simp only [fTryPut, hb, if_true, Option.some.injEq, Prod.mk.injEq] at hstep
      obtain ⟨hbb, -⟩ := hstep
      subst hbb
      constructor
      · intro _
        cases hA : s.active with
        | true => exact Or.inl rfl
        | false =>
          have hV : s.value.isSome = true := by
            rw [hA] at hb
            simpa using hb
          exact Or.inr (Option.isSome_iff_ne_none.mp hV)
      · intro _
        rfl
    · simp only [fTryPut, hb, if_false] at hstep
      rcases Option.map_eq_some'.mp hstep with ⟨s1, -, heq⟩
      simp only [Prod.mk.injEq] at heq
      obtain ⟨hbb, -⟩ := heq
      subst hbb
      constructor
      · intro h
        cases h
      · intro hbusy
        exfalso
        apply hb
        rcases hbusy with h | h
        · simp [h]
        · simp [Option.isSome_iff_ne_none.mpr h]

theorem c6_function_tryPut_frame_witness :
    fTryPut 9 (some 4) (⟨true, none, [], [], []⟩ : FState Nat Nat Nat Nat)
        = some (false, ⟨true, none, [], [4], []⟩)
    ∧ fTryPut 9 none (⟨false, none, [], [], []⟩ : FState Nat Nat Nat Nat)
        = some (true, ⟨true, none, [9], [], []⟩) :=
  ⟨(c6_function_tryPut_frame Nat Nat Nat Nat ⟨true, none, [], [], []⟩ 9
      (some 4)).1 (Or.inl rfl),
    (c6_function_tryPut_frame Nat Nat Nat Nat ⟨false, none, [], [], []⟩ 9
      none).2.1 ⟨rfl, rfl⟩⟩

/-- C8: try_put never refuses on these three node kinds.  broadcast_node and
overwrite_node return accepted unconditionally (provided no null pointer was
smuggled into the successor list by an earlier fire-and-forget try_get,
which would be undefined behavior — see the C10 theorem); queue_node returns
accepted from every reachable state, its internal assertion never firing
because a successful cache hand-off implies an empty FIFO. -/
theorem c8_tryPut_always_accepts :
    ∀ (σ α : Type) (i : α),
      (∀ (bs : BState σ α), bs.succs.any Option.isNone = false →
        ∃ ds, broadcastTryPut i bs = some (true, ds, bs))
      ∧ (∀ (os : OState σ α), os.succs.any Option.isNone = false →
        ∃ ds, owTryPut i os = some (true, ds, ⟨os.succs, some i⟩))
      ∧ (∀ (qs : QState σ α), QReachable qs → ∀ (f : σ → α → Bool),
        ∃ s', qTryPut f i qs = some (true, s')) := by
  intro σ α i
  refine ⟨?_, ?_, ?_⟩
  · intro bs h
    obtain ⟨rs, hrs⟩ := allSome_of_not_any_isNone h
    exact ⟨rs.map (fun r => (r, i)), by simp [broadcastTryPut, hrs]⟩
  · intro os h
    obtain ⟨rs, hrs⟩ := allSome_of_not_any_isNone h
    exact ⟨rs.map (fun r => (r, i)), by simp [owTryPut, hrs]⟩
  · intro qs hreach f
    by_cases hacc : (cacheTryPut f i qs.succs).1 = true
    · have hq : qs.queue = [] := by
        rcases queue_inv hreach with h | h
        · exact h
        · exact absurd h (cacheTryPut_fst_true_ne_nil hacc)
      refine ⟨⟨(cacheTryPut f i qs.succs).2, qs.queue⟩, ?_⟩
      simp [qTryPut, hacc, hq]
    · have hf : (cacheTryPut f i qs.succs).1 = false := Bool.eq_false_iff.mpr hacc
      refine ⟨⟨(cacheTryPut f i qs.succs).2, qs.queue ++ [i]⟩, ?_⟩
      simp [qTryPut, hf]

theorem c8_tryPut_always_accepts_witness :
    (∃ ds, broadcastTryPut 3 (⟨[some 1]⟩ : BState Nat Nat)
        = some (true, ds, ⟨[some 1]⟩))
    ∧ (∃ ds, owTryPut 3 (⟨[some 1], none⟩ : OState Nat Nat)
        = some (true, ds, ⟨[some 1], some 3⟩))
    ∧ (∃ s', qTryPut (fun _ _ => false) 3 (⟨[], []⟩ : QState Nat Nat)
        = some (true, s')) :=
  ⟨(c8_tryPut_always_accepts Nat Nat 3).1 ⟨[some 1]⟩ rfl,
    (c8_tryPut_always_accepts Nat Nat 3).2.1 ⟨[some 1], none⟩ rfl,
    (c8_tryPut_always_accepts Nat Nat 3).2.2 ⟨[], []⟩ (QReachable.init [])
      (fun _ _ => false)⟩

theorem c7_overwrite_read_not_consuming_witness :
    owTryGet (some 1) (⟨[], some 4⟩ : OState Nat Nat) = (some 4, ⟨[], some 4⟩)
    ∧ owTryGet none (owTryGet (some 1) (⟨[], some 4⟩ : OState Nat Nat)).2
        = (some 4, ⟨[], some 4⟩)
    ∧ owTryGet none (⟨[], some 8⟩ : OState Nat Nat) = (some 8, ⟨[], some 8⟩) :=
  ⟨((c7_overwrite_read_not_consuming Nat Nat ⟨[], some 4⟩ (some 1) none).1
      4 rfl).1,
    ((c7_overwrite_read_not_consuming Nat Nat ⟨[], some 4⟩ (some 1) none).1
      4 rfl).2,
    (c7_overwrite_read_not_consuming Nat Nat ⟨[], none⟩ none none).2
      8 [] ⟨[], some 8⟩ rfl⟩

theorem c10_null_successor_hazard_witness :
    broadcastTryGet none (⟨[]⟩ : BState Nat Nat) = (none, ⟨[none]⟩)
    ∧ owTryGet none (⟨[], none⟩ : OState Nat Nat) = (none, ⟨[none], none⟩)
    ∧ broadcastRegister 2 (⟨[]⟩ : BState Nat Nat) = ⟨[some 2]⟩
    ∧ broadcastTryPut 3 (⟨[none]⟩ : BState Nat Nat) = none
    ∧ broadcastTryPut 3 (⟨[some 1]⟩ : BState Nat Nat)
        = some (true, [(1, 3)], ⟨[some 1]⟩) :=
  ⟨(c10_null_successor_hazard Nat Nat ⟨[]⟩ ⟨[], none⟩ none 2 3).1,
    (c10_null_successor_hazard Nat Nat ⟨[]⟩ ⟨[], none⟩ none 2 3).2.1 rfl,
    (c10_null_successor_hazard Nat Nat ⟨[]⟩ ⟨[], none⟩ none 2 3).2.2.1,
    (c10_null_successor_hazard Nat Nat ⟨[none]⟩ ⟨[], none⟩ none 2 3).2.2.2.1 rfl,
    (c10_null_successor_hazard Nat Nat ⟨[some 1]⟩ ⟨[], none⟩ none 2 3).2.2.2.2
      [1] rfl⟩

theorem c2_cache_drain_amended_witness :
    ((∃ (pre : List Nat) (r : Nat) (post : List Nat),
        ([] : List Nat) = pre ++ r :: post ∧ (∀ x ∈ pre, refuseAll x 9 = false) ∧
        refuseAll r 9 = true ∧ cacheTryPut refuseAll 9 [] = (true, r :: post))
      ∨ ((∀ x ∈ ([] : List Nat), refuseAll x 9 = false) ∧
        cacheTryPut refuseAll 9 [] = (false, [])))
    ∧ ((∃ (pre : List Nat) (p : Nat) (post : List Nat) (o : Nat),
        ([] : List Nat) = pre ++ p :: post ∧ (∀ x ∈ pre, pullNone x = none) ∧
        pullNone p = some o ∧ cacheTryGet pullNone [] = (some o, p :: post))
      ∨ ((∀ x ∈ ([] : List Nat), pullNone x = none) ∧
        cacheTryGet pullNone [] = (none, []))) :=
  c2_cache_drain_amended Nat Nat Nat Nat refuseAll 9 [] pullNone []

theorem c9_broadcast_tryGet_amended_witness :
    broadcastTryGet (some 3) (⟨[some 1]⟩ : BState Nat Nat)
      = ((none : Option Nat), ⟨[some 1] ++ [some 3]⟩) :=
  c9_broadcast_tryGet_amended Nat Nat (some 3) ⟨[some 1]⟩

end Tasket
